import Mathlib

/-!
Shallow embedding of the remote-control ingestion and persistence core of
the `last-snow` kiosk application (sources: `src/main.rs`, `src/store.rs`).

Modelling conventions:
* JSON values stored in the settings file are restricted to the shapes the
  program actually reads and writes: integers (`serde_json` numbers built
  from `i32`/`i64`) and strings.
* The `HashMap<String, JsonValue>` cache is modelled as an association list
  with at most one entry per key; `insert` replaces in place or appends.
* Fallible Rust code is modelled with `Except`/`Option`; a Rust `panic!`
  (`unwrap` on `None`/`Err`) is modelled as `Option.none` propagating out of
  the whole operation.
* The staging CSV file `tmp.csv` is modelled as the CSV reader sees it:
  `none` = file missing, `unreadable` = the file cannot be opened,
  `malformed` = some row fails CSV parsing, `lines ls` = a parseable file
  whose raw records (header line included) are `ls`.  The `csv` reader
  consumes the first record as the header, so the data-row count of
  `lines ls` is `ls.length - 1`.
-/

namespace LastSnow

/-- JSON values as used by the program (numbers and strings). -/
inductive JsonValue where
  | num (n : Int)
  | str (s : String)
deriving DecidableEq

/-- In-memory settings cache: `HashMap<String, serde_json::Value>` modelled
as an association list with unique keys. -/
abbrev Cache := List (String × JsonValue)

/-- `HashMap::insert`: replace the value of an existing key, otherwise add
the pair. -/
def cacheInsert : Cache → String → JsonValue → Cache
  | [], k, v => [(k, v)]
  | p :: rest, k, v => if p.1 = k then (k, v) :: rest else p :: cacheInsert rest k v

/-- `HashMap::get`. -/
def cacheGet (m : Cache) (k : String) : Option JsonValue :=
  (m.find? (fun p => p.1 = k)).map (·.2)

/-- `HashMap::extend`: insert every entry of `n` into `m`, overwriting. -/
def cacheExtend (m n : Cache) : Cache :=
  n.foldl (fun acc p => cacheInsert acc p.1 p.2) m

/-- `serde_json::Value::as_i64`. -/
def asI64 : JsonValue → Option Int
  | .num n => some n
  | _ => none

/-- `serde_json::Value::as_str`. -/
def asStr : JsonValue → Option String
  | .str s => some s
  | _ => none

/-- The on-disk settings file (`<public_dir>/.settings`) as `Store::load`
sees it: unreadable (`fs::read` fails), corrupt (deserialization fails), or
a well-formed serialized cache. -/
inductive SettingsFile where
  | missing
  | corrupt
  | data (m : Cache)
deriving DecidableEq

/-- `store::Store` (the serialize/deserialize function fields are the
defaults and are represented by the `SettingsFile` codec itself). -/
structure Store where
  path : String
  defaults : Option Cache
  cache : Cache
deriving DecidableEq

/-- `store::StoreBuilder`. -/
structure StoreBuilder where
  path : String
  defaults : Option Cache
  cache : Cache
deriving DecidableEq

/-- `StoreBuilder::new`. -/
def StoreBuilder.new (path : String) : StoreBuilder :=
  { path := path, defaults := none, cache := [] }

/-- `StoreBuilder::build`. -/
def StoreBuilder.build (b : StoreBuilder) : Store :=
  { path := b.path, defaults := b.defaults, cache := b.cache }

/-- `Store::load`: read the backing file, deserialize, and extend the cache
with the result.  The `?` operator returns early on failure, leaving the
cache untouched; the pair returns the call's result together with the store
after the call. -/
def Store.load (fs : SettingsFile) (s : Store) : Except String Unit × Store :=
  match fs with
  | .missing => (.error "read failed", s)
  | .corrupt => (.error "deserialize failed", s)
  | .data m => (.ok (), { s with cache := cacheExtend s.cache m })

/-- `Store::save`: serialize the entire cache and overwrite the backing
file (success path of the file I/O). -/
def Store.save (s : Store) : SettingsFile :=
  .data s.cache

/-- `Store::insert`: upsert into the cache only. -/
def Store.insert (s : Store) (k : String) (v : JsonValue) : Store :=
  { s with cache := cacheInsert s.cache k v }

/-- `Store::get`. -/
def Store.get (s : Store) (k : String) : Option JsonValue :=
  cacheGet s.cache k

/-- `Store::has`. -/
def Store.has (s : Store) (k : String) : Bool :=
  (cacheGet s.cache k).isSome

/-- The store every operation works with: `StoreBuilder::new(".settings").build()`
followed by `store.load()` whose error is logged and ignored
(`unwrap_or_else`), leaving the fresh empty cache in place on failure. -/
def loadedStore (fs : SettingsFile) : Store :=
  ((StoreBuilder.new ".settings").build.load fs).2

/-! ## Record log (`main.rs`) -/

/-- `struct Row { language, sentence, timestamp }`. -/
structure Row where
  language : String
  sentence : String
  timestamp : String
deriving DecidableEq

/-- The CSV header record that `csv::Writer::serialize` emits for `Row`. -/
def headerLine : Row :=
  { language := "language", sentence := "sentence", timestamp := "timestamp" }

/-- A CSV file on disk, as seen by the `csv` crate. -/
inductive CsvFile where
  | unreadable
  | malformed
  | lines (ls : List Row)
deriving DecidableEq

/-- `count_csv_rows`: `csv::Reader::from_path` failing (missing or
unreadable file) or any record failing to parse yields 0; otherwise the
reader consumes the first record as the header and counts the rest. -/
def count_csv_rows : Option CsvFile → Nat
  | none => 0
  | some .unreadable => 0
  | some .malformed => 0
  | some (.lines ls) => ls.length - 1

/-- `write_sentence`: open `file_path` in append/create mode and write the
row, preceded by the header record when `headers` is set
(`csv::Writer::serialize` emits the header before its first record;
`write_record` does not).  Returns the staging file content after the
write; `none` models the `unwrap` panic when the file cannot be opened.
Appending to a malformed file leaves it malformed (the offending row still
fails parsing). -/
def write_sentence (row : Row) (f : Option CsvFile) (headers : Bool) : Option CsvFile :=
  let newLines := if headers then [headerLine, row] else [row]
  match f with
  | none => some (.lines newLines)
  | some .unreadable => none
  | some .malformed => some .malformed
  | some (.lines ls) => some (.lines (ls ++ newLines))

/-- The numeric value of a list of decimal digit characters. -/
def digitsVal (cs : List Char) : Nat :=
  cs.foldl (fun n c => n * 10 + (c.toNat - 48)) 0

/-- Rust `str::parse::<usize>`: an optional leading `+` sign followed by at
least one decimal digit (overflow is not modelled; archive indices stay far
below `usize::MAX`). -/
def parseUsize? (s : String) : Option Nat :=
  let cs := if s.data.head? = some '+' then s.data.tail else s.data
  if cs ≠ [] ∧ cs.all Char.isDigit then some (digitsVal cs) else none

/-- `Path::file_stem` of a plain file name: the part before the last dot,
except that a leading-dot-only name is its own stem. -/
def fileStem (s : String) : String :=
  match s.data.reverse.dropWhile (fun c => c ≠ '.') with
  | [] => s
  | _ :: rest => if rest = [] then s else ⟨rest.reverse⟩

/-- `get_new_filename`, applied to the base names (file stems) of the
entries of the `sentences` archive directory: fold `max` over each stem
parsed as `usize`, starting from 0, and add 1.  `none` models the `unwrap`
panic when a stem does not parse. -/
def get_new_filename (stems : List String) : Option Nat :=
  (stems.foldlM (fun acc s => (parseUsize? s).map (fun v => Nat.max v acc)) 0).map (· + 1)

/-- The record log: the staging file `tmp.csv` and the files of the
`sentences` archive directory (file name with extension, content). -/
structure LogState where
  staging : Option CsvFile
  archive : List (String × CsvFile)
deriving DecidableEq

/-- An attempted forwarding datagram: target address, payload (the
sentence text), and whether the socket send succeeded. -/
structure Send where
  target : String
  payload : String
  delivered : Bool
deriving DecidableEq

/-- Result of a completed (non-panicking) `submit_sentence` call: the new
log state and the forwarding datagrams attempted.  The Rust function's only
non-panicking exit is `Ok(())`. -/
structure SubmitOut where
  log : LogState
  sends : List Send
deriving DecidableEq

/-- Rust `as usize` on an `i64`: wrap modulo `2^64`. -/
def usizeOfInt (n : Int) : Nat :=
  (n % (2 : Int) ^ 64).toNat

/-- Reading `max_sentences_per_csv` inside `submit_sentence`: the preset
default 100 when the key is missing (the error is only logged), otherwise
`val.as_i64().unwrap() as usize` (`none` models the `unwrap` panic on a
non-numeric value). -/
def readThreshold (store : Store) : Option Nat :=
  match cacheGet store.cache "max_sentences_per_csv" with
  | some v => (asI64 v).map usizeOfInt
  | none => some 100

/-- Reading `td_osc_address` and performing the forwarding send inside
`submit_sentence`: no send when the key is missing (only logged); otherwise
`val.as_str().unwrap()` (`none` models the panic on a non-string value)
followed by one datagram to that address whose failure is logged and
discarded (`unwrap_or_else`). -/
def forwardSends (store : Store) (text : String) (sendOk : Bool) : Option (List Send) :=
  match cacheGet store.cache "td_osc_address" with
  | some v => (asStr v).map (fun a => [{ target := a, payload := text, delivered := sendOk }])
  | none => some []

/-- The rotation step of `submit_sentence`: when `rows + 1 >= sentences_per_csv`,
compute the next archive file name from the stems of the current archive
entries and rename `tmp.csv` to it; otherwise keep the written staging
file. -/
def rotateWhenFull (rows spc : Nat) (staging1 : CsvFile)
    (archive : List (String × CsvFile)) : Option LogState :=
  if rows + 1 ≥ spc then
    (get_new_filename (archive.map (fun e => fileStem e.1))).map
      (fun idx => { staging := none, archive := archive ++ [(Nat.repr idx ++ ".csv", staging1)] })
  else
    some { staging := some staging1, archive := archive }

/-- `submit_sentence`: build the row, count the staging rows, append the
row (header row exactly when the prior count was 0), load the settings
store, read the threshold, forward the notification datagram, and rotate
when full.  `none` models any `unwrap` panic along the way; the steps occur
in the source's order, so an earlier panic prevents the later effects. -/
def submit_sentence (language text timestamp : String) (sendOk : Bool)
    (fs : SettingsFile) (log : LogState) : Option SubmitOut :=
  (write_sentence { language := language, sentence := text, timestamp := timestamp }
      log.staging (count_csv_rows log.staging == 0)).bind fun staging1 =>
    (readThreshold (loadedStore fs)).bind fun sentences_per_csv =>
      (forwardSends (loadedStore fs) text sendOk).bind fun sends =>
        (rotateWhenFull (count_csv_rows log.staging) sentences_per_csv staging1
            log.archive).map
          (fun newLog => { log := newLog, sends := sends })

/-! ## Control message decoder & dispatcher (`handle_packet` in `main.rs`) -/

/-- `rosc::OscType` arguments, restricted to the shapes the dispatcher
matches on; every other wire type (floats, blobs, ...) is `other`. -/
inductive OscType where
  | str (s : String)
  | int (n : Int)
  | other
deriving DecidableEq

/-- `rosc::OscMessage`. -/
structure OscMessage where
  addr : String
  args : List OscType
deriving DecidableEq

/-- `rosc::OscPacket`: a plain message or a bundle of nested packets. -/
inductive OscPacket where
  | message (m : OscMessage)
  | bundle (content : List OscPacket)

/-- The shared mutable world of the dispatcher: the on-disk settings file
and the record log (the `sentences` archive directory is assumed to
exist). -/
structure World where
  settingsFile : SettingsFile
  log : LogState
deriving DecidableEq

/-- The `match (msg.addr.as_str(), msg.args.as_slice())` of `handle_packet`:
route each recognized (address, argument-shape) pair to a store mutation or
a record-log deletion; anything else only logs a warning. -/
def dispatchMessage (msg : OscMessage) (s : Store) (log : LogState) : Store × LogState :=
  match msg.addr, msg.args with
  | "/td_osc_address", [.str a] => (s.insert "td_osc_address" (.str a), log)
  | "/max_characters", [.int n] => (s.insert "max_characters" (.num n), log)
  | "/max_sentences_per_csv", [.int n] => (s.insert "max_sentences_per_csv" (.num n), log)
  | "/remove_all_csv", [] => (s, { staging := none, archive := [] })
  | "/remove_output_csv", [.str filename] =>
      (s, { log with archive := log.archive.filter (fun e => e.1 ≠ filename) })
  | "/remove_tmp_csv", [] => (s, { log with staging := none })
  | _, _ => (s, log)

/-- Whether `msg` matches one of the recognized (address, argument-shape)
arms of the dispatcher. -/
def recognizedShape (msg : OscMessage) : Bool :=
  match msg.addr, msg.args with
  | "/td_osc_address", [.str _] => true
  | "/max_characters", [.int _] => true
  | "/max_sentences_per_csv", [.int _] => true
  | "/remove_all_csv", [] => true
  | "/remove_output_csv", [.str _] => true
  | "/remove_tmp_csv", [] => true
  | _, _ => false

/-- The `OscPacket::Message` branch of `handle_packet`: fresh store, load
(ignoring errors), dispatch, then one `store.save()` (ignoring errors). -/
def handleMessage (msg : OscMessage) (w : World) : World :=
  let s1 := loadedStore w.settingsFile
  let sl := dispatchMessage msg s1 w.log
  { settingsFile := sl.1.save, log := sl.2 }

mutual
/-- `handle_packet`: a message is dispatched and the store saved once; a
bundle recursively handles each nested packet in order.  The second
component counts the `store.save()` calls performed. -/
def handle_packet : OscPacket → World → World × Nat
  | .message msg, w => (handleMessage msg w, 1)
  | .bundle content, w => handle_packets content w
/-- Processing the packets of a bundle in encounter order, accumulating the
number of `store.save()` calls. -/
def handle_packets : List OscPacket → World → World × Nat
  | [], w => (w, 0)
  | p :: rest, w =>
    let r1 := handle_packet p w
    let r2 := handle_packets rest r1.1
    (r2.1, r1.2 + r2.2)
end

mutual
/-- Number of `OscPacket::Message` leaves of a packet. -/
def countMsgs : OscPacket → Nat
  | .message _ => 1
  | .bundle content => countMsgsList content
/-- Number of `OscPacket::Message` leaves of a packet list. -/
def countMsgsList : List OscPacket → Nat
  | [] => 0
  | p :: rest => countMsgs p + countMsgsList rest
end

/-! ## Theorems -/

/-- Claim C6 (confirmed).  If `Store::load` fails — the backing file cannot
be read or its contents cannot be deserialized — it returns an error and
the in-memory cache after the call equals the cache before the call. -/
theorem load_error_cache_unchanged (fs : SettingsFile) (s : Store)
    (h : (Store.load fs s).1.isOk = false) :
    ((Store.load fs s).2).cache = s.cache := by
  cases fs <;> simp_all [Store.load, Except.isOk, Except.toBool]

/-- Witness for `load_error_cache_unchanged` at a concrete unreadable file
and a non-empty prior cache. -/
theorem load_error_cache_unchanged_witness :
    ((Store.load .missing ⟨".settings", none, [("a", .num 1)]⟩).1.isOk = false) ∧
    ((Store.load .missing ⟨".settings", none, [("a", .num 1)]⟩).2).cache = [("a", .num 1)] :=
  ⟨by decide, load_error_cache_unchanged .missing ⟨".settings", none, [("a", .num 1)]⟩ (by decide)⟩

/-- Claim C10 (corrected, amended part).  `count_csv_rows` returns 0 when the
staging file is missing, unreadable, or fails CSV parsing; a submission
against a missing staging file treats it as empty and writes the header
row with the new record, and one against a malformed staging file also
passes the header flag (the appended bytes leave the file unparsable).
The third cause in the original claim — an unreadable file — does *not*
lead to a row being written: the append-mode reopen panics (see the
counterexample `count_zero_unreadable_submission_panics`). -/
theorem count_zero_and_header_on_empty :
    count_csv_rows none = 0 ∧
    count_csv_rows (some .unreadable) = 0 ∧
    count_csv_rows (some .malformed) = 0 ∧
    (∀ row : Row, write_sentence row none (count_csv_rows none == 0) =
      some (.lines [headerLine, row])) ∧
    (∀ row : Row, write_sentence row (some .malformed) (count_csv_rows (some .malformed) == 0) =
      some .malformed) :=
  ⟨rfl, rfl, rfl, fun _ => rfl, fun _ => rfl⟩

/-- Claim C10 counterexample.  Against an *unreadable* staging file the
submission does not "treat it as empty and write the header row with the
new record": `OpenOptions::open` fails and the `unwrap` in `write_sentence`
panics, aborting the whole submission before anything is written. -/
theorem count_zero_unreadable_submission_panics :
    submit_sentence "en" "x" "t" true (.data [("max_sentences_per_csv", .num 100)])
      ⟨some .unreadable, []⟩ = none := by
  decide

/-- Claim C2 (confirmed).  A dispatched message whose address is unknown, or
whose argument count or types do not match the expected shape for a known
address, performs no mutation: the dispatch returns the settings cache and
the record log exactly as they were, and at the packet level the record
log is untouched. -/
theorem unrecognized_no_mutation (msg : OscMessage)
    (h : recognizedShape msg = false) :
    (∀ (s : Store) (log : LogState), dispatchMessage msg s log = (s, log)) ∧
    (∀ w : World, (handle_packet (.message msg) w).1.log = w.log) := by
  have hd : ∀ (s : Store) (log : LogState), dispatchMessage msg s log = (s, log) := by
    obtain ⟨addr, args⟩ := msg
    intro s log
    unfold dispatchMessage
    split <;> simp_all [recognizedShape]
  refine ⟨hd, fun w => ?_⟩
  have hp : handle_packet (.message msg) w = (handleMessage msg w, 1) := rfl
  rw [hp]
  simp [handleMessage, hd]

/-- Witness for `unrecognized_no_mutation`: the unknown address `/foo`
with an integer argument leaves a concrete store and record log
untouched. -/
theorem unrecognized_no_mutation_witness :
    recognizedShape ⟨"/foo", [.int 3]⟩ = false ∧
    dispatchMessage ⟨"/foo", [.int 3]⟩ ⟨".settings", none, [("a", .num 1)]⟩
        ⟨some .malformed, [("1.csv", .lines [])]⟩ =
      (⟨".settings", none, [("a", .num 1)]⟩, ⟨some .malformed, [("1.csv", .lines [])]⟩) :=
  ⟨by decide, (unrecognized_no_mutation ⟨"/foo", [.int 3]⟩ (by decide)).1 _ _⟩

mutual
/-- Helper: `handle_packet` performs one `store.save()` per message leaf. -/
theorem savesAux : ∀ (p : OscPacket) (w : World), (handle_packet p w).2 = countMsgs p
  | .message msg, w => by simp [handle_packet, countMsgs]
  | .bundle content, w => by simp [handle_packet, countMsgs, savesListAux content w]
/-- Helper: processing a packet list performs one `store.save()` per
message leaf. -/
theorem savesListAux : ∀ (l : List OscPacket) (w : World), (handle_packets l w).2 = countMsgsList l
  | [], _ => by simp [handle_packets, countMsgsList]
  | p :: rest, w => by
      simp [handle_packets, countMsgsList, savesAux p w,
        savesListAux rest (handle_packet p w).1]
end

/-- Claim C1 counterexample.  A top-level bundle containing two nested
messages performs two `store.save()` calls — one per nested message — not
one save for the whole top-level message as the claim states. -/
theorem bundle_saves_per_entry_cex :
    (handle_packet (.bundle [.message ⟨"/max_characters", [.int 5]⟩,
        .message ⟨"/max_characters", [.int 6]⟩]) ⟨.data [], ⟨none, []⟩⟩).2 = 2 ∧
    (2 : Nat) ≠ 1 := by
  exact ⟨by decide, by decide⟩

/-- Claim C1 (corrected, amended).  The dispatcher saves the Settings Store
exactly once per `OscPacket::Message` leaf it processes: a top-level plain
message causes exactly one save, but a bundle causes one save for each
nested message (recursively), not a single save for the whole top-level
packet. -/
theorem saves_once_per_message_leaf (p : OscPacket) (w : World) :
    (handle_packet p w).2 = countMsgs p :=
  savesAux p w

/-! ## Cache lemmas (for the settings round-trip) -/

/-- The mapping produced by a sequence of inserts, by the spec's words:
the *last* insert for a key wins (later entries take priority). -/
def lastWins : List (String × JsonValue) → String → Option JsonValue
  | [], _ => none
  | p :: rest, k => (lastWins rest k).or (if p.1 = k then some p.2 else none)

/-- A finite sequence of `Store::insert` calls. -/
def applyInserts (l : List (String × JsonValue)) (s : Store) : Store :=
  l.foldl (fun st p => st.insert p.1 p.2) s

theorem cacheGet_nil (k : String) : cacheGet [] k = none := rfl

theorem cacheGet_cons (p : String × JsonValue) (rest : Cache) (k : String) :
    cacheGet (p :: rest) k = if p.1 = k then some p.2 else cacheGet rest k := by
  by_cases h : p.1 = k <;> simp [cacheGet, List.find?_cons, h]

theorem cacheGet_cacheInsert (m : Cache) (k : String) (v : JsonValue) (k' : String) :
    cacheGet (cacheInsert m k v) k' = if k = k' then some v else cacheGet m k' := by
  induction m with
  | nil => by_cases h : k = k' <;> simp [cacheInsert, cacheGet_cons, cacheGet_nil, h]
  | cons p rest ih =>
      by_cases hp : p.1 = k
      · subst hp
        by_cases h : p.1 = k' <;> simp [cacheInsert, cacheGet_cons, h]
      · by_cases h : p.1 = k'
        · have hk : k ≠ k' := fun hkk => hp (h.trans hkk.symm)
          simp [cacheInsert, hp, cacheGet_cons, h, hk, Ne.symm hk]
        · simp [cacheInsert, hp, cacheGet_cons, h, ih]

theorem cacheGet_foldl_insert (l : List (String × JsonValue)) :
    ∀ (acc : Cache) (k : String),
      cacheGet (l.foldl (fun a p => cacheInsert a p.1 p.2) acc) k =
        (lastWins l k).or (cacheGet acc k) := by
  induction l with
  | nil => intro acc k; simp [lastWins]
  | cons p rest ih =>
      intro acc k
      simp only [List.foldl_cons, lastWins, ih, cacheGet_cacheInsert, Option.or_assoc]
      by_cases h : p.1 = k
      · simp [h]
      · simp [h]

/-- The keys of a cache. -/
def cacheKeys (m : Cache) : List String := m.map Prod.fst

theorem lastWins_of_not_mem (m : List (String × JsonValue)) (k : String)
    (h : k ∉ cacheKeys m) : lastWins m k = none := by
  induction m with
  | nil => rfl
  | cons p rest ih =>
      simp only [cacheKeys, List.map_cons, List.mem_cons] at h
      push_neg at h
      have h1 : p.1 ≠ k := fun hh => h.1 hh.symm
      simp [lastWins, ih h.2, h1]

theorem lastWins_eq_cacheGet_of_nodup (m : Cache) (k : String)
    (h : (cacheKeys m).Nodup) : lastWins m k = cacheGet m k := by
  induction m with
  | nil => rfl
  | cons p rest ih =>
      simp only [cacheKeys, List.map_cons, List.nodup_cons] at h
      by_cases hp : p.1 = k
      · have : lastWins rest k = none :=
          lastWins_of_not_mem rest k (by rw [← hp]; exact h.1)
        simp [lastWins, cacheGet_cons, hp, this]
      · simp [lastWins, cacheGet_cons, hp, ih h.2]

theorem cacheKeys_cons (p : String × JsonValue) (m : Cache) :
    cacheKeys (p :: m) = p.1 :: cacheKeys m := rfl

theorem cacheKeys_cacheInsert (m : Cache) (k : String) (v : JsonValue) :
    cacheKeys (cacheInsert m k v) =
      if k ∈ cacheKeys m then cacheKeys m else cacheKeys m ++ [k] := by
  induction m with
  | nil => simp [cacheInsert, cacheKeys]
  | cons p rest ih =>
      by_cases hp : p.1 = k
      · simp [cacheInsert, hp, cacheKeys]
      · by_cases hm : k ∈ cacheKeys rest
        · have hmem : k ∈ cacheKeys (p :: rest) := by
            rw [cacheKeys_cons]
            exact List.mem_cons_of_mem _ hm
          rw [if_pos hmem]
          simp only [cacheInsert, if_neg hp, cacheKeys_cons]
          rw [show cacheKeys (cacheInsert rest k v) = cacheKeys rest by
            simpa [if_pos hm] using ih]
        · have hmem : k ∉ cacheKeys (p :: rest) := by
            rw [cacheKeys_cons, List.mem_cons]
            push_neg
            exact ⟨fun hh => hp hh.symm, hm⟩
          rw [if_neg hmem]
          simp only [cacheInsert, if_neg hp, cacheKeys_cons, List.cons_append]
          rw [show cacheKeys (cacheInsert rest k v) = cacheKeys rest ++ [k] by
            simpa [if_neg hm] using ih]

theorem nodup_cacheInsert (m : Cache) (k : String) (v : JsonValue)
    (h : (cacheKeys m).Nodup) : (cacheKeys (cacheInsert m k v)).Nodup := by
  rw [cacheKeys_cacheInsert]
  by_cases hm : k ∈ cacheKeys m
  · simpa [hm] using h
  · simp only [hm, if_false]
    refine List.Nodup.append h (List.nodup_singleton k) ?_
    intro x hx hxk
    simp only [List.mem_singleton] at hxk
    exact hm (hxk ▸ hx)

theorem nodup_foldl_insert (l : List (String × JsonValue)) :
    ∀ (acc : Cache), (cacheKeys acc).Nodup →
      (cacheKeys (l.foldl (fun a p => cacheInsert a p.1 p.2) acc)).Nodup := by
  induction l with
  | nil => exact fun acc h => h
  | cons p rest ih =>
      intro acc h
      exact ih _ (nodup_cacheInsert acc p.1 p.2 h)

theorem applyInserts_cache (l : List (String × JsonValue)) :
    ∀ (s : Store), (applyInserts l s).cache =
      l.foldl (fun a p => cacheInsert a p.1 p.2) s.cache := by
  induction l with
  | nil => intro s; rfl
  | cons p rest ih =>
      intro s
      simp only [applyInserts, List.foldl_cons] at ih ⊢
      exact ih { s with cache := cacheInsert s.cache p.1 p.2 }

theorem cacheInsert_not_mem (acc : Cache) (k : String) (v : JsonValue)
    (h : k ∉ cacheKeys acc) : cacheInsert acc k v = acc ++ [(k, v)] := by
  induction acc with
  | nil => rfl
  | cons q qrest ih =>
      rw [cacheKeys_cons, List.mem_cons] at h
      push_neg at h
      have hq : ¬ q.1 = k := fun hh => h.1 hh.symm
      simp [cacheInsert, hq, ih h.2]

theorem cacheExtend_nil_of_nodup (m : Cache) (hnd : (cacheKeys m).Nodup) :
    cacheExtend [] m = m := by
  suffices h : ∀ (n : Cache) (acc : Cache), (cacheKeys n).Nodup →
      (∀ x ∈ cacheKeys n, x ∉ cacheKeys acc) → cacheExtend acc n = acc ++ n by
    simpa using h m [] hnd (by simp [cacheKeys])
  intro n
  induction n with
  | nil => intro acc _ _; simp [cacheExtend]
  | cons p rest ih =>
      intro acc hnd2 hdisj
      rw [cacheKeys_cons, List.nodup_cons] at hnd2
      have hpacc : p.1 ∉ cacheKeys acc :=
        hdisj p.1 (by rw [cacheKeys_cons]; exact List.mem_cons_self _ _)
      have hstep : cacheExtend acc (p :: rest) = cacheExtend (acc ++ [p]) rest := by
        simp [cacheExtend, List.foldl_cons, cacheInsert_not_mem acc p.1 p.2 hpacc]
      rw [hstep, ih (acc ++ [p]) hnd2.2 ?_]
      · simp
      · intro x hx hxa
        have hxkeys : cacheKeys (acc ++ [p]) = cacheKeys acc ++ [p.1] := by
          simp [cacheKeys]
        rw [hxkeys, List.mem_append, List.mem_singleton] at hxa
        rcases hxa with hxa | hxa
        · exact hdisj x (by rw [cacheKeys_cons]; exact List.mem_cons_of_mem _ hx) hxa
        · exact hnd2.1 (hxa ▸ hx)

/-- Claim C7 (confirmed).  For every finite sequence of `insert` calls on a
fresh Settings Store, saving and then loading on a freshly constructed
store with an empty cache reproduces exactly the inserted mapping: the
loaded cache is literally the saved cache, and looking up any key yields
the value of the last insert for that key. -/
theorem insert_save_load_roundtrip (inserts : List (String × JsonValue)) (k : String) :
    (loadedStore (Store.save (applyInserts inserts ((StoreBuilder.new ".settings").build)))).cache
        = (applyInserts inserts ((StoreBuilder.new ".settings").build)).cache ∧
    cacheGet (loadedStore (Store.save
        (applyInserts inserts ((StoreBuilder.new ".settings").build)))).cache k
      = lastWins inserts k := by
  set c := (applyInserts inserts ((StoreBuilder.new ".settings").build)).cache with hc
  have hcfold : c = inserts.foldl (fun a p => cacheInsert a p.1 p.2) [] := by
    rw [hc, applyInserts_cache]
    rfl
  have hnodup : (cacheKeys c).Nodup := by
    rw [hcfold]
    exact nodup_foldl_insert inserts [] (by simp [cacheKeys])
  have hload : (loadedStore (Store.save (applyInserts inserts
      ((StoreBuilder.new ".settings").build)))).cache = cacheExtend [] c := rfl
  have hpoint : ∀ k', cacheGet (cacheExtend [] c) k' = cacheGet c k' := by
    intro k'
    have h1 : cacheGet (cacheExtend [] c) k' = (lastWins c k').or (cacheGet [] k') :=
      cacheGet_foldl_insert c [] k'
    rw [h1, cacheGet_nil, Option.or_none, lastWins_eq_cacheGet_of_nodup c k' hnodup]
  constructor
  · rw [hload, cacheExtend_nil_of_nodup c hnodup]
  · rw [hload, hpoint k, hcfold, cacheGet_foldl_insert, cacheGet_nil, Option.or_none]

/-! ## Decimal rendering and parsing of archive indices -/

/-- The decimal digit characters of `n`, most significant first
(specification of `Nat.toDigits 10`, without the fuel argument). -/
def decDigits (n : Nat) : List Char :=
  if _h : n < 10 then [Nat.digitChar n]
  else
    have : n / 10 < n := Nat.div_lt_self (by omega) (by omega)
    decDigits (n / 10) ++ [Nat.digitChar (n % 10)]

theorem toDigitsCore_eq_decDigits :
    ∀ (fuel n : Nat) (ds : List Char), n < fuel →
      Nat.toDigitsCore 10 fuel n ds = decDigits n ++ ds := by
  intro fuel
  induction fuel with
  | zero => intro n ds h; omega
  | succ f ih =>
      intro n ds h
      by_cases h10 : n / 10 = 0
      · have hn : n < 10 := by omega
        rw [Nat.toDigitsCore]
        simp only [h10, if_pos rfl]
        rw [decDigits, dif_pos hn, Nat.mod_eq_of_lt hn]
        rfl
      · have hge : ¬ n < 10 := by omega
        have hlt : n / 10 < f := by
          have : n / 10 < n := Nat.div_lt_self (by omega) (by omega)
          omega
        simp only [Nat.toDigitsCore]
        rw [if_neg h10, ih (n / 10) (Nat.digitChar (n % 10) :: ds) hlt]
        conv_rhs => rw [decDigits]
        rw [dif_neg hge]
        simp

theorem repr_data (n : Nat) : (Nat.repr n).data = decDigits n := by
  show (Nat.toDigits 10 n).asString.data = decDigits n
  rw [Nat.toDigits, toDigitsCore_eq_decDigits (n + 1) n [] (Nat.lt_succ_self n)]
  simp [List.asString]

theorem digitChar_isDigit (d : Nat) (h : d < 10) : (Nat.digitChar d).isDigit = true := by
  interval_cases d <;> decide

theorem digitChar_toNat (d : Nat) (h : d < 10) : (Nat.digitChar d).toNat - 48 = d := by
  interval_cases d <;> decide

theorem decDigits_ne_nil (n : Nat) : decDigits n ≠ [] := by
  rw [decDigits]
  split <;> simp

theorem decDigits_all_digit (n : Nat) : ∀ c ∈ decDigits n, c.isDigit = true := by
  induction n using Nat.strong_induction_on with
  | _ n ih =>
      by_cases h : n < 10
      · rw [decDigits, dif_pos h]
        intro c hc
        simp only [List.mem_singleton] at hc
        subst hc
        exact digitChar_isDigit n h
      · rw [decDigits, dif_neg h]
        intro c hc
        rw [List.mem_append] at hc
        rcases hc with hc | hc
        · exact ih (n / 10) (Nat.div_lt_self (by omega) (by omega)) c hc
        · simp only [List.mem_singleton] at hc
          subst hc
          exact digitChar_isDigit (n % 10) (Nat.mod_lt n (by omega))

theorem digitsVal_append_singleton (cs : List Char) (c : Char) :
    digitsVal (cs ++ [c]) = digitsVal cs * 10 + (c.toNat - 48) := by
  simp [digitsVal, List.foldl_append]

theorem digitsVal_decDigits (n : Nat) : digitsVal (decDigits n) = n := by
  induction n using Nat.strong_induction_on with
  | _ n ih =>
      by_cases h : n < 10
      · rw [decDigits, dif_pos h]
        have := digitChar_toNat n h
        simp [digitsVal]
        omega
      · rw [decDigits, dif_neg h, digitsVal_append_singleton,
          ih (n / 10) (Nat.div_lt_self (by omega) (by omega)),
          digitChar_toNat (n % 10) (Nat.mod_lt n (by omega))]
        omega

theorem parseUsize_repr (n : Nat) : parseUsize? (Nat.repr n) = some n := by
  have hd := repr_data n
  have hne := decDigits_ne_nil n
  have hall := decDigits_all_digit n
  unfold parseUsize?
  rw [hd]
  have hhead : ¬ (decDigits n).head? = some '+' := by
    cases hcs : decDigits n with
    | nil => simp
    | cons c rest =>
        simp only [List.head?]
        intro hc
        have hcp : c = '+' := by simpa using hc
        have hdig : c.isDigit = true := hall c (by rw [hcs]; exact List.mem_cons_self _ _)
        rw [hcp] at hdig
        exact absurd hdig (by decide)
  rw [if_neg hhead, if_pos ⟨hne, by simpa [List.all_eq_true] using hall⟩,
    digitsVal_decDigits]

theorem fileStem_append_csv (s : String) (hne : s.data ≠ []) :
    fileStem (s ++ ".csv") = s := by
  unfold fileStem
  have hdata : (s ++ ".csv").data = s.data ++ ['.', 'c', 's', 'v'] := by
    rw [String.data_append]
  rw [hdata, List.reverse_append]
  have hrev : (['.', 'c', 's', 'v'] : List Char).reverse ++ s.data.reverse =
      'v' :: 's' :: 'c' :: '.' :: s.data.reverse := rfl
  rw [hrev]
  have hdrop : List.dropWhile (fun c => c ≠ '.')
      ('v' :: 's' :: 'c' :: '.' :: s.data.reverse) = '.' :: s.data.reverse := by
    simp [List.dropWhile_cons]
  rw [hdrop]
  have hne' : s.data.reverse ≠ [] := by simpa using hne
  show (if s.data.reverse = [] then s ++ ".csv" else String.mk s.data.reverse.reverse) = s
  rw [if_neg hne', List.reverse_reverse]

/-! ## Archive-index fold lemmas -/

theorem foldlM_parse (l : List String) :
    ∀ (vals : List Nat) (acc : Nat), l.mapM parseUsize? = some vals →
      l.foldlM (fun acc s => (parseUsize? s).map (fun v => Nat.max v acc)) acc =
        some (vals.foldl (fun a v => Nat.max v a) acc) := by
  induction l with
  | nil =>
      intro vals acc h
      simp only [List.mapM_nil, pure, Option.some.injEq] at h
      subst h
      rfl
  | cons s rest ih =>
      intro vals acc h
      rw [List.mapM_cons] at h
      cases hp : parseUsize? s with
      | none => rw [hp] at h; simp at h
      | some v =>
          rw [hp] at h
          simp only [Option.bind_eq_bind, Option.some_bind, pure] at h
          cases hrest : rest.mapM parseUsize? with
          | none => rw [hrest] at h; simp at h
          | some vs =>
              rw [hrest] at h
              simp only [Option.some_bind, Option.some.injEq] at h
              subst h
              rw [List.foldlM_cons, hp]
              simp only [Option.map_some', Option.some_bind, List.foldl_cons]
              exact ih vs (Nat.max v acc) hrest

theorem foldlM_parse_bad (l : List String) (s : String) :
    ∀ (acc : Nat), s ∈ l → parseUsize? s = none →
      l.foldlM (fun acc t => (parseUsize? t).map (fun v => Nat.max v acc)) acc = none := by
  induction l with
  | nil => intro acc hs; cases hs
  | cons t rest ih =>
      intro acc hs hbad
      rw [List.foldlM_cons]
      rcases List.mem_cons.mp hs with h | h
      · subst h
        rw [hbad]
        rfl
      · cases hp : parseUsize? t with
        | none => rfl
        | some v => exact ih (Nat.max v acc) h hbad

theorem foldl_max_le_acc (vals : List Nat) :
    ∀ acc : Nat, acc ≤ vals.foldl (fun a v => Nat.max v a) acc := by
  induction vals with
  | nil => intro acc; exact Nat.le_refl acc
  | cons v rest ih =>
      intro acc
      exact Nat.le_trans (Nat.le_max_right v acc) (ih (Nat.max v acc))

theorem foldl_max_le_mem (vals : List Nat) :
    ∀ (acc v : Nat), v ∈ vals → v ≤ vals.foldl (fun a v => Nat.max v a) acc := by
  induction vals with
  | nil => intro _ _ h; cases h
  | cons w rest ih =>
      intro acc v hv
      rcases List.mem_cons.mp hv with h | h
      · subst h
        exact Nat.le_trans (Nat.le_max_left v acc) (foldl_max_le_acc rest (Nat.max v acc))
      · exact ih (Nat.max w acc) v h

theorem foldl_max_mem_or_acc (vals : List Nat) :
    ∀ acc : Nat, vals.foldl (fun a v => Nat.max v a) acc = acc ∨
      vals.foldl (fun a v => Nat.max v a) acc ∈ vals := by
  induction vals with
  | nil => intro acc; exact Or.inl rfl
  | cons v rest ih =>
      intro acc
      rcases ih (Nat.max v acc) with h | h
      · rw [List.foldl_cons, h]
        rcases Nat.le_total v acc with hle | hle
        · exact Or.inl (Nat.max_eq_right hle)
        · exact Or.inr (by
            rw [show Nat.max v acc = v from Nat.max_eq_left hle]
            exact List.mem_cons_self _ _)
      · exact Or.inr (List.mem_cons_of_mem _ h)

/-- Claim C4 (confirmed).  When every base name in the archive directory
parses as an integer, `get_new_filename` returns 1 plus the fold of `max`
over the parsed values starting from 0 — which is the maximum of the
parsed values (and 0, hence index 1, when the directory is empty).  The
computation looks only at the current directory listing, never at the
staging file. -/
theorem new_filename_is_succ_max (stems : List String) (vals : List Nat)
    (h : stems.mapM parseUsize? = some vals) :
    get_new_filename stems = some (vals.foldl (fun a v => Nat.max v a) 0 + 1) ∧
    (∀ v ∈ vals, v ≤ vals.foldl (fun a v => Nat.max v a) 0) ∧
    (vals.foldl (fun a v => Nat.max v a) 0 = 0 ∨
      vals.foldl (fun a v => Nat.max v a) 0 ∈ vals) := by
  refine ⟨?_, fun v hv => foldl_max_le_mem vals 0 v hv, foldl_max_mem_or_acc vals 0⟩
  unfold get_new_filename
  rw [foldlM_parse stems vals 0 h]
  rfl

/-- Witness for `new_filename_is_succ_max`: an archive containing exactly
`3.csv` yields `4.csv` next, and an empty archive yields `1.csv`. -/
theorem new_filename_is_succ_max_witness :
    ([fileStem "3.csv"].mapM parseUsize? = some [3] ∧
      get_new_filename [fileStem "3.csv"] = some 4) ∧
    ([] : List String).mapM parseUsize? = some [] ∧
      get_new_filename [] = some 1 :=
  ⟨⟨by decide, by simpa using (new_filename_is_succ_max [fileStem "3.csv"] [3] (by decide)).1⟩,
    by decide, by simpa using (new_filename_is_succ_max [] [] (by decide)).1⟩

/-- Claim C8 (confirmed).  If the archive directory contains a file whose
base name does not parse as an integer, computing the next archive index
fails — the failure (the `unwrap` panic, which the spec classifies as the
surfaced `ConfigurationError`) aborts the whole rotation attempt — and a
submission that reaches the rotation step aborts without renaming the
staging file (the rename in the source is sequenced strictly after a
successful `get_new_filename`). -/
theorem bad_stem_rotation_fails (language text timestamp : String) (sendOk : Bool)
    (fs : SettingsFile) (log : LogState) (e : String × CsvFile) (T : Nat)
    (hmem : e ∈ log.archive)
    (hbad : parseUsize? (fileStem e.1) = none)
    (hT : readThreshold (loadedStore fs) = some T)
    (hfull : T ≤ count_csv_rows log.staging + 1) :
    get_new_filename (log.archive.map (fun x => fileStem x.1)) = none ∧
    submit_sentence language text timestamp sendOk fs log = none := by
  have hgnf : get_new_filename (log.archive.map (fun x => fileStem x.1)) = none := by
    unfold get_new_filename
    rw [foldlM_parse_bad (log.archive.map (fun x => fileStem x.1)) (fileStem e.1) 0
      (List.mem_map_of_mem _ hmem) hbad]
    rfl
  refine ⟨hgnf, ?_⟩
  unfold submit_sentence
  cases hw : write_sentence ⟨language, text, timestamp⟩ log.staging
      (count_csv_rows log.staging == 0) with
  | none => rfl
  | some staging1 =>
      simp only [Option.some_bind]
      rw [hT]
      simp only [Option.some_bind]
      cases hf : forwardSends (loadedStore fs) text sendOk with
      | none => rfl
      | some sends =>
          simp only [Option.some_bind]
          unfold rotateWhenFull
          rw [if_pos hfull, hgnf]
          rfl

/-- Witness for `bad_stem_rotation_fails`: a rotation due at threshold 1
over an archive containing `garbage.csv` aborts. -/
theorem bad_stem_rotation_fails_witness :
    (("garbage.csv", CsvFile.lines []) ∈ ([("garbage.csv", CsvFile.lines [])] :
        List (String × CsvFile)) ∧
      parseUsize? (fileStem "garbage.csv") = none ∧
      readThreshold (loadedStore (.data [("max_sentences_per_csv", .num 1)])) = some 1 ∧
      1 ≤ count_csv_rows none + 1) ∧
    submit_sentence "en" "hi" "t0" true (.data [("max_sentences_per_csv", .num 1)])
      ⟨none, [("garbage.csv", CsvFile.lines [])]⟩ = none :=
  ⟨⟨by decide, by decide, by decide, by decide⟩,
    (bad_stem_rotation_fails "en" "hi" "t0" true (.data [("max_sentences_per_csv", .num 1)])
      ⟨none, [("garbage.csv", CsvFile.lines [])]⟩ ("garbage.csv", CsvFile.lines []) 1
      (by decide) (by decide) (by decide) (by decide)).2⟩

theorem count_write_le (row : Row) (f : Option CsvFile) (f' : CsvFile)
    (h : write_sentence row f (count_csv_rows f == 0) = some f') :
    count_csv_rows (some f') ≤ count_csv_rows f + 2 := by
  cases f with
  | none =>
      simp only [write_sentence, count_csv_rows, Option.some.injEq] at h
      subst h
      simp [count_csv_rows]
  | some g =>
      cases g with
      | unreadable => simp [write_sentence] at h
      | malformed =>
          simp only [write_sentence, Option.some.injEq] at h
          subst h
          simp [count_csv_rows]
      | lines ls =>
          simp only [write_sentence, count_csv_rows, Option.some.injEq] at h
          subst h
          simp only [count_csv_rows, List.length_append]
          by_cases hz : ls.length - 1 = 0
          · simp only [show ((ls.length - 1 == 0) = true) from by simpa using hz]
            simp
            omega
          · simp only [show ((ls.length - 1 == 0) = false) from by simpa using hz]
            simp
            omega

/-- Claim C3 (corrected, amended).  Rotation occurs exactly when
`1 + (pre-write row count)` meets the threshold — for a well-formed or
missing staging file this quantity equals the post-write row count, but
not for a malformed one (see the counterexample) — and after every
completed submission the staging file's row count never exceeds the
threshold. -/
theorem rotation_threshold_amended (language text timestamp : String) (sendOk : Bool)
    (fs : SettingsFile) (log : LogState) (T : Nat) (out : SubmitOut)
    (hsub : submit_sentence language text timestamp sendOk fs log = some out)
    (hT : readThreshold (loadedStore fs) = some T) :
    (out.log.staging = none ↔ T ≤ count_csv_rows log.staging + 1) ∧
    count_csv_rows out.log.staging ≤ T := by
  unfold submit_sentence at hsub
  cases hw : write_sentence ⟨language, text, timestamp⟩ log.staging
      (count_csv_rows log.staging == 0) with
  | none => rw [hw] at hsub; simp at hsub
  | some staging1 =>
      rw [hw, hT] at hsub
      simp only [Option.some_bind] at hsub
      cases hf : forwardSends (loadedStore fs) text sendOk with
      | none => rw [hf] at hsub; simp at hsub
      | some sends =>
          rw [hf] at hsub
          simp only [Option.some_bind] at hsub
          unfold rotateWhenFull at hsub
          by_cases hfull : count_csv_rows log.staging + 1 ≥ T
          · rw [if_pos hfull] at hsub
            cases hg : get_new_filename (log.archive.map (fun e => fileStem e.1)) with
            | none => rw [hg] at hsub; simp at hsub
            | some idx =>
                rw [hg] at hsub
                simp only [Option.map_some', Option.some.injEq] at hsub
                subst hsub
                refine ⟨⟨fun _ => hfull, fun _ => rfl⟩, ?_⟩
                simp [count_csv_rows]
          · rw [if_neg hfull] at hsub
            simp only [Option.map_some', Option.some.injEq] at hsub
            subst hsub
            constructor
            · constructor
              · intro hcontr
                exact absurd hcontr (by simp)
              · intro hle
                exact absurd hle hfull
            · have h2 := count_write_le ⟨language, text, timestamp⟩ log.staging staging1 hw
              dsimp only
              omega

/-- Claim C3 counterexample.  With a malformed staging file and threshold 1,
the code rotates (the staging file is archived as `1.csv`) even though the
*post-write* row count of the staging file is 0, which is below the
threshold — refuting "rotated exactly when the post-write row count is ≥
the threshold".  The code compares `1 + (pre-write count)` instead. -/
theorem rotation_postcount_cex :
    submit_sentence "en" "x" "t" true (.data [("max_sentences_per_csv", .num 1)])
        ⟨some .malformed, []⟩ =
      some ⟨⟨none, [("1.csv", CsvFile.malformed)]⟩, []⟩ ∧
    write_sentence ⟨"en", "x", "t"⟩ (some .malformed)
        (count_csv_rows (some .malformed) == 0) = some .malformed ∧
    count_csv_rows (some .malformed) = 0 ∧ ¬ (1 : Nat) ≤ 0 := by
  exact ⟨by decide, by decide, by decide, by decide⟩

/-- Witness for `rotation_threshold_amended`: a submission below the
threshold keeps the staging file; its row count (1) stays within the
threshold (2). -/
theorem rotation_threshold_amended_witness :
    submit_sentence "en" "hi" "t0" true (.data [("max_sentences_per_csv", .num 2)])
        ⟨none, []⟩ =
      some ⟨⟨some (.lines [headerLine, ⟨"en", "hi", "t0"⟩]), []⟩, []⟩ ∧
    readThreshold (loadedStore (.data [("max_sentences_per_csv", .num 2)])) = some 2 ∧
    count_csv_rows (some (CsvFile.lines [headerLine, ⟨"en", "hi", "t0"⟩])) ≤ 2 :=
  ⟨by decide, by decide,
    (rotation_threshold_amended "en" "hi" "t0" true (.data [("max_sentences_per_csv", .num 2)])
      ⟨none, []⟩ 2 ⟨⟨some (.lines [headerLine, ⟨"en", "hi", "t0"⟩]), []⟩, []⟩
      (by decide) (by decide)).2⟩

/-- Claim C9 (confirmed).  When a forwarding address is configured (the
loaded settings hold a string under `td_osc_address`), every successful
submission attempts exactly one notification datagram carrying the
sentence text to that address, and the outcome of that send never affects
the rest of the submission: the resulting log state (hence the rotation
decision) and the success of the call are identical whether the send
succeeded or failed (`send_to`'s error is logged and discarded). -/
theorem forward_best_effort (language text timestamp : String)
    (fs : SettingsFile) (log : LogState) (a : String)
    (hcfg : cacheGet (loadedStore fs).cache "td_osc_address" = some (.str a)) :
    (∀ (sendOk : Bool) (out : SubmitOut),
        submit_sentence language text timestamp sendOk fs log = some out →
          out.sends = [{ target := a, payload := text, delivered := sendOk }]) ∧
    (submit_sentence language text timestamp false fs log).map SubmitOut.log =
      (submit_sentence language text timestamp true fs log).map SubmitOut.log ∧
    ((submit_sentence language text timestamp false fs log).isSome ↔
      (submit_sentence language text timestamp true fs log).isSome) := by
  have hfs : ∀ so : Bool, forwardSends (loadedStore fs) text so =
      some [{ target := a, payload := text, delivered := so }] := by
    intro so
    unfold forwardSends
    rw [hcfg]
    rfl
  refine ⟨?_, ?_⟩
  · intro so out hsub
    unfold submit_sentence at hsub
    cases hw : write_sentence ⟨language, text, timestamp⟩ log.staging
        (count_csv_rows log.staging == 0) with
    | none => rw [hw] at hsub; simp at hsub
    | some staging1 =>
        rw [hw] at hsub
        simp only [Option.some_bind] at hsub
        cases hth : readThreshold (loadedStore fs) with
        | none => rw [hth] at hsub; simp at hsub
        | some T =>
            rw [hth, hfs so] at hsub
            simp only [Option.some_bind] at hsub
            cases hrot : rotateWhenFull (count_csv_rows log.staging) T staging1 log.archive with
            | none => rw [hrot] at hsub; simp at hsub
            | some nl =>
                rw [hrot] at hsub
                simp only [Option.map_some', Option.some.injEq] at hsub
                subst hsub
                rfl
  · unfold submit_sentence
    cases hw : write_sentence ⟨language, text, timestamp⟩ log.staging
        (count_csv_rows log.staging == 0) with
    | none => exact ⟨rfl, Iff.rfl⟩
    | some staging1 =>
        simp only [Option.some_bind]
        cases hth : readThreshold (loadedStore fs) with
        | none => exact ⟨rfl, Iff.rfl⟩
        | some T =>
            simp only [Option.some_bind]
            rw [hfs true, hfs false]
            simp only [Option.some_bind]
            cases hrot : rotateWhenFull (count_csv_rows log.staging) T staging1 log.archive with
            | none => exact ⟨rfl, Iff.rfl⟩
            | some nl => exact ⟨rfl, Iff.rfl⟩

/-- Witness for `forward_best_effort`: with `td_osc_address` configured,
the submission attempts exactly one datagram with the sentence text, and a
failed send leaves the resulting log state identical to a successful
one. -/
theorem forward_best_effort_witness :
    cacheGet (loadedStore (.data [("td_osc_address", .str "10.0.0.5:7001"),
        ("max_sentences_per_csv", .num 100)])).cache "td_osc_address" =
      some (.str "10.0.0.5:7001") ∧
    (submit_sentence "en" "hola" "t0" false
        (.data [("td_osc_address", .str "10.0.0.5:7001"),
          ("max_sentences_per_csv", .num 100)]) ⟨none, []⟩).map SubmitOut.log =
      (submit_sentence "en" "hola" "t0" true
        (.data [("td_osc_address", .str "10.0.0.5:7001"),
          ("max_sentences_per_csv", .num 100)]) ⟨none, []⟩).map SubmitOut.log :=
  ⟨by decide,
    (forward_best_effort "en" "hola" "t0"
      (.data [("td_osc_address", .str "10.0.0.5:7001"),
        ("max_sentences_per_csv", .num 100)]) ⟨none, []⟩ "10.0.0.5:7001"
      (by decide)).2.1⟩

/-! ## Repeated submission scenario (C5) -/

/-- A settings file carrying only the rotation threshold. -/
def settingsWithT (T : Nat) : SettingsFile :=
  .data [("max_sentences_per_csv", .num (T : Int))]

/-- The data rows of the `i`-th (0-based) archive chunk. -/
def chunkRows (recs : Nat → Row) (T i : Nat) : List Row :=
  (List.range T).map (fun j => recs (i * T + j))

/-- The record-log state expected after `k` submissions of `recs 0`,
`recs 1`, ... with threshold `T`, starting from no staging file and an
empty archive directory. -/
def expectedLog (recs : Nat → Row) (T k : Nat) : LogState :=
  { staging :=
      if k % T = 0 then none
      else some (.lines (headerLine ::
        (List.range (k % T)).map (fun j => recs (k / T * T + j))))
  , archive := (List.range (k / T)).map
      (fun i => (Nat.repr (i + 1) ++ ".csv",
        CsvFile.lines (headerLine :: chunkRows recs T i))) }

/-- `k` consecutive `submit_sentence` calls starting from an empty log. -/
def submitIter (recs : Nat → Row) (T : Nat) : Nat → Option LogState
  | 0 => some { staging := none, archive := [] }
  | k + 1 => (submitIter recs T k).bind fun log =>
      (submit_sentence (recs k).language (recs k).sentence (recs k).timestamp true
        (settingsWithT T) log).map SubmitOut.log

theorem loadedStore_settingsWithT (T : Nat) :
    (loadedStore (settingsWithT T)).cache =
      [("max_sentences_per_csv", .num (T : Int))] := rfl

theorem readThreshold_settingsWithT (T : Nat) (hT64 : T < 2 ^ 64) :
    readThreshold (loadedStore (settingsWithT T)) = some T := by
  unfold readThreshold
  rw [loadedStore_settingsWithT,
    show cacheGet [("max_sentences_per_csv", JsonValue.num (T : Int))]
        "max_sentences_per_csv" = some (.num (T : Int)) from by
      simp [cacheGet_cons]]
  simp only [asI64, Option.map_some']
  unfold usizeOfInt
  rw [Int.emod_eq_of_lt (by positivity) (by exact_mod_cast hT64)]
  simp

theorem forwardSends_settingsWithT (T : Nat) (text : String) (so : Bool) :
    forwardSends (loadedStore (settingsWithT T)) text so = some [] := by
  unfold forwardSends
  rw [loadedStore_settingsWithT,
    show cacheGet [("max_sentences_per_csv", JsonValue.num (T : Int))] "td_osc_address"
      = none from rfl]

theorem count_expected_staging (recs : Nat → Row) (T k : Nat) :
    count_csv_rows (expectedLog recs T k).staging = k % T := by
  unfold expectedLog
  by_cases h : k % T = 0
  · simp [h, count_csv_rows]
  · simp [h, count_csv_rows]

theorem divmod_spec (b q r : Nat) (hb : 0 < b) (hr : r < b) :
    (b * q + r) / b = q ∧ (b * q + r) % b = r := by
  constructor
  · rw [Nat.mul_add_div hb, Nat.div_eq_of_lt hr, Nat.add_zero]
  · rw [Nat.mul_add_mod, Nat.mod_eq_of_lt hr]

theorem mapM_parse_map (l : List Nat) (f : Nat → Nat) :
    ((l.map (fun i => Nat.repr (f i))).mapM parseUsize?) = some (l.map f) := by
  induction l with
  | nil => rfl
  | cons x xs ih =>
      simp only [List.map_cons, List.mapM_cons, parseUsize_repr, ih]
      rfl

theorem foldl_max_range_succ (m : Nat) :
    ((List.range m).map (fun i => i + 1)).foldl (fun a v => Nat.max v a) 0 = m := by
  induction m with
  | zero => rfl
  | succ n ih =>
      rw [List.range_succ, List.map_append, List.foldl_append, ih]
      show Nat.max (n + 1) n = n + 1
      exact Nat.max_eq_left (by omega)

theorem gnf_range (m : Nat) :
    get_new_filename ((List.range m).map (fun i => Nat.repr (i + 1))) = some (m + 1) := by
  unfold get_new_filename
  rw [foldlM_parse ((List.range m).map (fun i => Nat.repr (i + 1)))
      ((List.range m).map (fun i => i + 1)) 0 (mapM_parse_map (List.range m) (fun i => i + 1)),
    foldl_max_range_succ m]
  rfl

theorem stems_of_range_archive (m : Nat) (F : Nat → CsvFile) :
    (((List.range m).map (fun i => (Nat.repr (i + 1) ++ ".csv", F i))).map
      (fun e => fileStem e.1)) = (List.range m).map (fun i => Nat.repr (i + 1)) := by
  rw [List.map_map]
  apply List.map_congr_left
  intro i _
  exact fileStem_append_csv (Nat.repr (i + 1)) (by rw [repr_data]; exact decDigits_ne_nil _)

theorem rotate_not_full (rows T : Nat) (staging1 : CsvFile)
    (archive : List (String × CsvFile)) (h : rows + 1 < T) :
    rotateWhenFull rows T staging1 archive =
      some { staging := some staging1, archive := archive } := by
  unfold rotateWhenFull
  rw [if_neg (by omega)]

theorem rotate_full_range (rows T : Nat) (staging1 : CsvFile) (recs : Nat → Row) (m : Nat)
    (h : T ≤ rows + 1) :
    rotateWhenFull rows T staging1 ((List.range m).map
        (fun i => (Nat.repr (i + 1) ++ ".csv",
          CsvFile.lines (headerLine :: chunkRows recs T i)))) =
      some { staging := none,
             archive := (List.range m).map (fun i => (Nat.repr (i + 1) ++ ".csv",
               CsvFile.lines (headerLine :: chunkRows recs T i))) ++
               [(Nat.repr (m + 1) ++ ".csv", staging1)] } := by
  unfold rotateWhenFull
  rw [if_pos h, stems_of_range_archive m _, gnf_range m]
  rfl

theorem submit_step (recs : Nat → Row) (T k : Nat) (hT : 0 < T) (hT64 : T < 2 ^ 64) :
    submit_sentence (recs k).language (recs k).sentence (recs k).timestamp true
        (settingsWithT T) (expectedLog recs T k) =
      some { log := expectedLog recs T (k + 1), sends := [] } := by
  have hmodlt : k % T < T := Nat.mod_lt k hT
  have hdm : T * (k / T) + k % T = k := Nat.div_add_mod k T
  have hmulc : k / T * T = T * (k / T) := Nat.mul_comm _ _
  have hrows := count_expected_staging recs T k
  -- the staging file content after the write step
  have hwrite : write_sentence (recs k) (expectedLog recs T k).staging
      (count_csv_rows (expectedLog recs T k).staging == 0) =
      some (.lines (headerLine :: (List.range (k % T + 1)).map
        (fun j => recs (k / T * T + j)))) := by
    rw [hrows]
    by_cases h0 : k % T = 0
    · have hstag : (expectedLog recs T k).staging = none := by simp [expectedLog, h0]
      rw [hstag, h0]
      show some (CsvFile.lines [headerLine, recs k]) =
        some (CsvFile.lines (headerLine ::
          (List.range (0 + 1)).map (fun j => recs (k / T * T + j))))
      have hk : k / T * T + 0 = k := by omega
      rw [show List.range (0 + 1) = [0] from rfl]
      simp only [List.map_cons, List.map_nil]
      rw [hk]
    · have hstag : (expectedLog recs T k).staging =
          some (.lines (headerLine ::
            (List.range (k % T)).map (fun j => recs (k / T * T + j)))) := by
        simp [expectedLog, h0]
      rw [hstag, show ((k % T == 0) = false) from by
        simp only [beq_eq_false_iff_ne, ne_eq]
        exact h0]
      show some (CsvFile.lines ((headerLine :: (List.range (k % T)).map
          (fun j => recs (k / T * T + j))) ++ [recs k])) =
        some (CsvFile.lines (headerLine ::
          (List.range (k % T + 1)).map (fun j => recs (k / T * T + j))))
      have hk : k / T * T + k % T = k := by omega
      rw [List.range_succ, List.map_append, List.cons_append]
      simp only [List.map_cons, List.map_nil]
      rw [hk]
  unfold submit_sentence
  rw [hwrite]
  simp only [Option.some_bind]
  rw [readThreshold_settingsWithT T hT64]
  simp only [Option.some_bind]
  rw [forwardSends_settingsWithT]
  simp only [Option.some_bind]
  rw [hrows]
  by_cases hfull : T ≤ k % T + 1
  · -- the staging file fills up exactly: rotation
    have hTeq : k % T + 1 = T := by omega
    have harch : (expectedLog recs T k).archive = (List.range (k / T)).map
        (fun i => (Nat.repr (i + 1) ++ ".csv",
          CsvFile.lines (headerLine :: chunkRows recs T i))) := rfl
    rw [harch, rotate_full_range _ _ _ recs _ hfull]
    have hmul : T * (k / T + 1) = T * (k / T) + T := Nat.mul_succ T (k / T)
    have hspec := divmod_spec T (k / T + 1) 0 hT hT
    have hk1 : k + 1 = T * (k / T + 1) + 0 := by omega
    have hdiv1 : (k + 1) / T = k / T + 1 := by rw [hk1]; exact hspec.1
    have hmod1 : (k + 1) % T = 0 := by rw [hk1]; exact hspec.2
    have hexp : expectedLog recs T (k + 1) = LogState.mk none
        ((List.range (k / T + 1)).map (fun i => (Nat.repr (i + 1) ++ ".csv",
          CsvFile.lines (headerLine :: chunkRows recs T i)))) := by
      unfold expectedLog
      rw [hmod1, hdiv1]
      simp
    rw [hexp]
    simp only [Option.map_some', Option.some.injEq]
    conv_rhs => rw [List.range_succ, List.map_append]
    simp only [List.map_cons, List.map_nil]
    rw [show chunkRows recs T (k / T) =
        (List.range (k % T + 1)).map (fun j => recs (k / T * T + j)) from by
      unfold chunkRows
      rw [hTeq]]
  · -- below the threshold: no rotation
    have hlt : k % T + 1 < T := by omega
    rw [rotate_not_full _ _ _ _ hlt]
    have hspec := divmod_spec T (k / T) (k % T + 1) hT hlt
    have hk1 : k + 1 = T * (k / T) + (k % T + 1) := by omega
    have hdiv1 : (k + 1) / T = k / T := by rw [hk1]; exact hspec.1
    have hmod1 : (k + 1) % T = k % T + 1 := by rw [hk1]; exact hspec.2
    have hexp : expectedLog recs T (k + 1) = LogState.mk
        (some (.lines (headerLine ::
          (List.range (k % T + 1)).map (fun j => recs (k / T * T + j)))))
        ((List.range (k / T)).map (fun i => (Nat.repr (i + 1) ++ ".csv",
          CsvFile.lines (headerLine :: chunkRows recs T i)))) := by
      unfold expectedLog
      rw [hmod1, hdiv1, if_neg (by omega)]
    rw [hexp]
    rfl

theorem submitIter_eq (recs : Nat → Row) (T : Nat) (hT : 0 < T) (hT64 : T < 2 ^ 64) :
    ∀ N, submitIter recs T N = some (expectedLog recs T N) := by
  intro N
  induction N with
  | zero =>
      have h0 : expectedLog recs T 0 = { staging := none, archive := [] } := by
        simp [expectedLog, Nat.zero_mod, Nat.zero_div]
      rw [submitIter, h0]
  | succ k ih =>
      rw [submitIter, ih, Option.some_bind, submit_step recs T k hT hT64]
      rfl

/-- Claim C5 (confirmed).  Submitting `N` records with threshold `T`
(`0 < T < N`, `T` within `usize` range) starting from an empty archive and
no staging file produces exactly `⌊N/T⌋` archive files named `1.csv`
through `⌊N/T⌋.csv`, each holding exactly `T` data rows, plus a staging
file holding `N mod T` data rows — absent exactly when `N mod T = 0`. -/
theorem submit_n_records (recs : Nat → Row) (T N : Nat)
    (hT : 0 < T) (hTN : T < N) (hT64 : T < 2 ^ 64) :
    submitIter recs T N = some (expectedLog recs T N) ∧
    (expectedLog recs T N).archive.length = N / T ∧
    (expectedLog recs T N).archive.map Prod.fst =
      (List.range (N / T)).map (fun i => Nat.repr (i + 1) ++ ".csv") ∧
    (∀ e ∈ (expectedLog recs T N).archive, count_csv_rows (some e.2) = T) ∧
    count_csv_rows (expectedLog recs T N).staging = N % T ∧
    ((expectedLog recs T N).staging = none ↔ N % T = 0) := by
  refine ⟨submitIter_eq recs T hT hT64 N, ?_, ?_, ?_, count_expected_staging recs T N, ?_⟩
  · simp [expectedLog]
  · simp [expectedLog, List.map_map]
  · intro e he
    simp only [expectedLog, List.mem_map] at he
    obtain ⟨i, _, rfl⟩ := he
    simp [count_csv_rows, chunkRows]
  · unfold expectedLog
    by_cases h : N % T = 0 <;> simp [h]

/-- Witness for `submit_n_records`: five submissions at threshold 2 yield
archives `1.csv`, `2.csv` with two rows each and a staging file with one
row. -/
theorem submit_n_records_witness :
    (0 < 2 ∧ 2 < 5 ∧ 2 < 2 ^ 64) ∧
    submitIter (fun i => ⟨"en", Nat.repr i, "ts"⟩) 2 5 =
      some (expectedLog (fun i => ⟨"en", Nat.repr i, "ts"⟩) 2 5) :=
  ⟨⟨by decide, by decide, by decide⟩,
    (submit_n_records (fun i => ⟨"en", Nat.repr i, "ts"⟩) 2 5
      (by decide) (by decide) (by decide)).1⟩

end LastSnow
